import Mathlib

/-!
# Object-recognition pipeline (`orProcessing.cpp`): embedding and verified properties

The development embeds the functions of `src/orProcessing.cpp`
(`rgb_to_hsv`, `thresholding_sat`, `thresholding_rgb`, `clean_up`,
`segmentation`, `segment_and_color`, `compute_features`) as Lean functions.

* An image (`cv::Mat`) is a list of rows, each row a list of pixels.
* `uchar` is `Fin 256`; `int` values that are provably non-negative are `Nat`,
  the others are `Int`.
* A read of a `std::vector` or of a `cv::Mat` outside its range is undefined
  behaviour in C++; here such a read stops the run with a `Fault` naming the
  table that was indexed out of range.
* Functions declared in `orUtil.hpp` and the OpenCV primitives are not part of
  `orProcessing.cpp`; the embedded functions take them as parameters.
-/

namespace OR

/-! ## Images -/

/-- An 8-bit unsigned channel value (`uchar`). -/
abbrev uchar := Fin 256

/-- The C conversion `(uchar) n` of a non-negative integer: reduction modulo 256. -/
def toUchar (n : Nat) : uchar := ⟨n % 256, Nat.mod_lt n (by decide)⟩

/-- A three-channel 8-bit pixel (`cv::Vec3b`), channels indexed `[0]`, `[1]`, `[2]`. -/
structure Vec3b where
  c0 : uchar
  c1 : uchar
  c2 : uchar
deriving DecidableEq, Repr

/-- The colour `cv::Vec3b(0, 0, 0)`. -/
def Vec3b.black : Vec3b := ⟨0, 0, 0⟩

/-- An image: the list of its rows. -/
abbrev Img (α : Type) := List (List α)

/-- The number of rows of an image (`Mat::rows`). -/
def Img.rows {α : Type} (m : Img α) : Nat := m.length

/-- The number of columns of an image (`Mat::cols`): the length of its first row. -/
def Img.cols {α : Type} (m : Img α) : Nat :=
  match m with
  | [] => 0
  | r :: _ => r.length

/-- The size of an image: the length of each of its rows, in order. -/
def Img.shape {α : Type} (m : Img α) : List Nat := m.map List.length

/-- The pixel at row `i`, column `j`, when that position lies inside the image. -/
def Img.at? {α : Type} (m : Img α) (i j : Nat) : Option α :=
  match m[i]? with
  | none => none
  | some row => row[j]?

/-! ## Thresholding -/

/-- The value `s` (a `long`) that `rgb_to_hsv` computes for one pixel, before the
cast to `uchar`: `0` when the maximum channel is `0`, else `255 * diff / c_max`. -/
def rgb_to_hsv_s (p : Vec3b) : Nat :=
  let r := p.c0.val
  let g := p.c1.val
  let b := p.c2.val
  let c_max := max r (max g b)
  let c_min := min r (min g b)
  let diff := c_max - c_min
  if c_max = 0 then 0 else 255 * diff / c_max

/-- The value `rgb_to_hsv` stores for one pixel: `(uchar) s`. -/
def rgb_to_hsv_pixel (p : Vec3b) : uchar := toUchar (rgb_to_hsv_s p)

/-- The function `rgb_to_hsv`: a one-channel image of the size of `src` holding, at
every position, the saturation of the pixel of `src` at that position. -/
def rgb_to_hsv (src : Img Vec3b) : Img uchar :=
  src.map (fun row => row.map rgb_to_hsv_pixel)

/-- The value `thresholding_sat` writes for a saturation value. -/
def sat_mark (saturation : Nat) : uchar :=
  if saturation < 35 then 0 else 255

/-- The function `thresholding_sat`. `blur3x3` (from `orUtil`) is a parameter; it
returns an image of the size of its argument, so the loop over `src.rows` and
`src.cols` visits exactly the positions of `hsv_result`. -/
def thresholding_sat (blur3x3 : Img Vec3b → Img Vec3b) (src : Img Vec3b) : Img uchar :=
  let blur_result := blur3x3 src
  let hsv_result := rgb_to_hsv blur_result
  hsv_result.map (fun row => row.map (fun s => sat_mark s.val))

/-- The value `thresholding_rgb` writes for one blurred pixel: the integer average
of the three channels is replaced by 255 when below 110 and by 0 otherwise, and
stored as a `uchar`. -/
def rgb_mark (p : Vec3b) : uchar :=
  let red := p.c0.val
  let green := p.c1.val
  let blue := p.c2.val
  let average := (red + green + blue) / 3
  let average := if average < 110 then 255 else 0
  toUchar average

/-- The function `thresholding_rgb`. `blur3x3` (from `orUtil`) is a parameter; it
returns an image of the size of its argument, so the loop over `blur_result`
fills exactly the positions of `dst`, allocated with `src.size()`. -/
def thresholding_rgb (blur3x3 : Img Vec3b → Img Vec3b) (src : Img Vec3b) : Img uchar :=
  let blur_result := blur3x3 src
  blur_result.map (fun row => row.map rgb_mark)

/-! ## Outcomes of a run -/

/-- The table a run indexed outside its range. Such a read is undefined behaviour
in C++; no function of `orProcessing.cpp` checks an index or throws. -/
inductive Fault where
  | out_label
  | stats
  | centroids
  | out_ids_to_keep
  | random_colors
deriving DecidableEq, Repr

/-- The element of a `std::vector` (or the row of a `cv::Mat`) at an `int` index,
when the index is in range. -/
def vecAt? {α : Type} (v : List α) (i : Int) : Option α :=
  if i < 0 then none else v[i.toNat]?

/-- Runs `f` on the elements of a list from left to right and stops at the
first fault. -/
def mapE {ε α β : Type} (f : α → Except ε β) : List α → Except ε (List β)
  | [] => .ok []
  | a :: l =>
    match f a with
    | .error e => .error e
    | .ok b =>
      match mapE f l with
      | .error e => .error e
      | .ok bs => .ok (b :: bs)

/-- The nested loop `for r < rows, for c < cols` that fills a fresh image with
`g r c`, in row-major order. -/
def forPixels {α : Type} (rows cols : Nat) (g : Nat → Nat → Except Fault α) :
    Except Fault (Img α) :=
  mapE (fun r => mapE (fun c => g r c) (List.range cols)) (List.range rows)

/-- Equality of outcomes is decidable, so that a run on concrete data can be
compared with its expected outcome. -/
instance decEqOutcome {ε α : Type} [DecidableEq ε] [DecidableEq α] :
    DecidableEq (Except ε α)
  | .ok a, .ok b =>
    if h : a = b then isTrue (congrArg Except.ok h)
    else isFalse (fun h2 => h (Except.ok.inj h2))
  | .error a, .error b =>
    if h : a = b then isTrue (congrArg Except.error h)
    else isFalse (fun h2 => h (Except.error.inj h2))
  | .ok _, .error _ => isFalse (fun h => Except.noConfusion h)
  | .error _, .ok _ => isFalse (fun h => Except.noConfusion h)

/-! ## Library interface -/

/-- A row of the statistics table of `cv::connectedComponentsWithStats`; the
columns are `CC_STAT_LEFT`, `CC_STAT_TOP`, `CC_STAT_WIDTH`, `CC_STAT_HEIGHT`,
`CC_STAT_AREA`. -/
structure StatRow where
  left : Int
  top : Int
  width : Int
  height : Int
  area : Int
deriving DecidableEq, Repr

/-- What `cv::connectedComponentsWithStats` returns: the label image, the
statistics table (one row per label) and the centroid table (one row of two
`double`s per label). -/
structure Components (D : Type) where
  labels : Img Int
  stats : List StatRow
  centroids : List (D × D)

/-- An output image (`cv::Mat`) together with its element type: three 8-bit
channels or one 8-bit channel. -/
inductive Mat where
  | CV_8UC3 (img : Img Vec3b)
  | CV_8UC1 (img : Img uchar)
deriving DecidableEq, Repr

/-- The operation argument of `cv::morphologyEx`. -/
inductive MorphOp where
  | MORPH_CLOSE
  | MORPH_OPEN
deriving DecidableEq, Repr

/-- The type `cv::RotatedRect` over the type `F` of `float`. -/
structure RotatedRect (F : Type) where
  center : F × F
  width : F
  height : F
  angle : F

/-- Arithmetic of `float` (`F`) and `double` (`D`) used by the pipeline. -/
structure FloatOps (F D : Type) where
  /-- The conversion `int` to `float`. -/
  ofInt : Int → F
  /-- The product of two `float`s. -/
  fmul : F → F → F
  /-- The quotient of two `float`s. -/
  fdiv : F → F → F
  /-- The conversion `float` to `double`. -/
  widen : F → D
  /-- The conversion `double` to `float`. -/
  narrow : D → F
  /-- The conversion `double` to `int`. -/
  trunc : D → Int

/-- The functions `orProcessing.cpp` calls and does not define: those declared in
`orUtil.hpp` and the OpenCV primitives. -/
structure Lib (F D : Type) where
  /-- The function `blur3x3` of `orUtil`. -/
  blur3x3 : Img Vec3b → Img Vec3b
  /-- The function `get_top_N_largest_areas_index` of `orUtil`. -/
  get_top_N_largest_areas_index : List Int → Int → List Int
  /-- The function `get_center_coordinates` of `orUtil`. -/
  get_center_coordinates : Img uchar → List Int
  /-- The function `get_id_with_most_center_centroids` of `orUtil`. -/
  get_id_with_most_center_centroids : List Int → List (D × D) → List Int → Int
  /-- The function `get_contour_of_interest` of `orUtil`. -/
  get_contour_of_interest : Mat → List (Int × Int)
  /-- The function `compute_log_scale_hu` of `orUtil`: the array of 7 `double`s it fills. -/
  compute_log_scale_hu : List (Int × Int) → Fin 7 → D
  /-- The call `cv::morphologyEx` with the 3x3 elliptic structuring element, the
  given operation and the given number of iterations. -/
  morphologyEx : Img uchar → MorphOp → Nat → Img uchar
  /-- The call `cv::connectedComponentsWithStats`. -/
  connectedComponentsWithStats : Img uchar → Components D
  /-- The call `cv::minAreaRect`. -/
  minAreaRect : List (Int × Int) → RotatedRect F
  /-- The call `cv::putText` of `segment_and_color`, with its fixed text and position. -/
  putText : Img Vec3b → Img Vec3b

/-! ## Clean-up -/

/-- The function `clean_up`: closing iterated 20 times, then opening iterated 6 times. -/
def clean_up {F D : Type} (lib : Lib F D) (src : Img uchar) : Img uchar :=
  let inter := lib.morphologyEx src MorphOp.MORPH_CLOSE 20
  lib.morphologyEx inter MorphOp.MORPH_OPEN 6

/-! ## Segmentation and colouring -/

/-- The outputs of `segmentation`. -/
structure Segmentation where
  out_label : Img Int
  out_ids_to_keep : List Int
  out_id_of_interest : Int
  out_stats : List StatRow
  out_centroid_of_interest : Int × Int
deriving DecidableEq, Repr

/-- The function `segmentation`. The centroid table is read at row
`out_id_of_interest`. -/
def segmentation {F D : Type} (fo : FloatOps F D) (lib : Lib F D) (src : Img uchar)
    (max_regions : Int) : Except Fault Segmentation :=
  let cc := lib.connectedComponentsWithStats src
  let areas := cc.stats.map (fun row => row.area)
  let out_ids_to_keep := lib.get_top_N_largest_areas_index areas max_regions
  let img_center := lib.get_center_coordinates src
  let out_id_of_interest :=
    lib.get_id_with_most_center_centroids img_center cc.centroids out_ids_to_keep
  match vecAt? cc.centroids out_id_of_interest with
  | none => .error Fault.centroids
  | some xy =>
    .ok { out_label := cc.labels
          out_ids_to_keep := out_ids_to_keep
          out_id_of_interest := out_id_of_interest
          out_stats := cc.stats
          out_centroid_of_interest := (fo.trunc xy.1, fo.trunc xy.2) }

/-- The call `std::map::insert`: an existing key keeps its value. -/
def map_insert (m : List (Int × Vec3b)) (k : Int) (v : Vec3b) : List (Int × Vec3b) :=
  if m.any (fun kv => kv.1 == k) then m else m ++ [(k, v)]

/-- The loop `for (int i = 1; i < max_regions; i++)` of `segment_and_color`, run on
the list of its indices: each turn reads `out_ids_to_keep[i]` and
`random_colors[i]`. -/
def regionid_colors_loop (out_ids_to_keep : List Int) (random_colors : List Vec3b) :
    List Nat → List (Int × Vec3b) → Except Fault (List (Int × Vec3b))
  | [], m => .ok m
  | i :: is, m =>
    match out_ids_to_keep[i]? with
    | none => .error Fault.out_ids_to_keep
    | some id =>
      match random_colors[i]? with
      | none => .error Fault.random_colors
      | some color => regionid_colors_loop out_ids_to_keep random_colors is (map_insert m id color)

/-- Steps 2 to 4 of `segment_and_color`: the map `regionid_colors`, black for
`out_ids_to_keep[0]` and `random_colors[i]` for `out_ids_to_keep[i]`,
`1 ≤ i < max_regions`. -/
def regionid_colors (out_ids_to_keep : List Int) (random_colors : List Vec3b)
    (max_regions : Int) : Except Fault (List (Int × Vec3b)) :=
  match out_ids_to_keep[0]? with
  | none => .error Fault.out_ids_to_keep
  | some id0 =>
    regionid_colors_loop out_ids_to_keep random_colors
      (List.range' 1 (max_regions.toNat - 1)) (map_insert [] id0 Vec3b.black)

/-- Step 5 of `segment_and_color`, the colourful mode before `cv::putText`: a pixel
whose label occurs in `out_ids_to_keep` gets `random_colors[region_id]`, any
other pixel gets black. -/
def color_regions (src : Img uchar) (out_label : Img Int) (out_ids_to_keep : List Int)
    (random_colors : List Vec3b) : Except Fault (Img Vec3b) :=
  forPixels (Img.rows src) (Img.cols src) (fun r c =>
    match Img.at? out_label r c with
    | none => .error Fault.out_label
    | some region_id =>
      if out_ids_to_keep.count region_id ≠ 0 then
        match vecAt? random_colors region_id with
        | none => .error Fault.random_colors
        | some color => .ok color
      else .ok Vec3b.black)

/-- Step 6 of `segment_and_color`, the single-channel mode: white for the pixels of
the region of interest, black for the others. -/
def keep_region_of_interest (src : Img uchar) (out_label : Img Int)
    (out_id_of_interest : Int) : Except Fault (Img uchar) :=
  forPixels (Img.rows src) (Img.cols src) (fun r c =>
    match Img.at? out_label r c with
    | none => .error Fault.out_label
    | some region_id => .ok (if region_id = out_id_of_interest then 255 else 0))

/-- The outputs of `segment_and_color`. -/
structure SegmentAndColor where
  dst : Mat
  out_area : Int
  out_centroid_of_interest : Int × Int
deriving DecidableEq, Repr

/-- The function `segment_and_color`. -/
def segment_and_color {F D : Type} (fo : FloatOps F D) (lib : Lib F D) (src : Img uchar)
    (random_colors : List Vec3b) (max_regions : Int) (isColorful : Bool) :
    Except Fault SegmentAndColor :=
  match segmentation fo lib src max_regions with
  | .error e => .error e
  | .ok seg =>
    match seg.out_stats[3]? with
    | none => .error Fault.stats
    | some row3 =>
      let out_area := row3.area
      match regionid_colors seg.out_ids_to_keep random_colors max_regions with
      | .error e => .error e
      | .ok _ =>
        if isColorful then
          match color_regions src seg.out_label seg.out_ids_to_keep random_colors with
          | .error e => .error e
          | .ok painted =>
            .ok { dst := Mat.CV_8UC3 (lib.putText painted)
                  out_area := out_area
                  out_centroid_of_interest := seg.out_centroid_of_interest }
        else
          match keep_region_of_interest src seg.out_label seg.out_id_of_interest with
          | .error e => .error e
          | .ok painted =>
            .ok { dst := Mat.CV_8UC1 painted
                  out_area := out_area
                  out_centroid_of_interest := seg.out_centroid_of_interest }

/-! ## Features -/

/-- The function `compute_features`, as far as `out_features` is concerned:
`out_features` is passed in by reference and the function appends to it. The
printing of the features and the drawing onto `dst` do not change
`out_features` and are left out. -/
def compute_features {F D : Type} (fo : FloatOps F D) (lib : Lib F D) (src : Img Vec3b)
    (random_colors : List Vec3b) (max_regions : Int) (out_features : List F) :
    Except Fault (List F) :=
  let binary_img := thresholding_rgb lib.blur3x3 src
  let cleaned_img := clean_up lib binary_img
  match segment_and_color fo lib cleaned_img random_colors max_regions false with
  | .error e => .error e
  | .ok seg =>
    let binary_one_region := seg.dst
    let pixel_area := seg.out_area
    let contour_of_interest := lib.get_contour_of_interest binary_one_region
    let hu_arr := lib.compute_log_scale_hu contour_of_interest
    let out_features := out_features ++ List.ofFn (fun i : Fin 7 => fo.narrow (hu_arr i))
    let rot_rect := lib.minAreaRect contour_of_interest
    let perc_fill : D :=
      fo.widen (fo.fmul (fo.fdiv (fo.ofInt pixel_area) (fo.fmul rot_rect.width rot_rect.height))
                  (fo.ofInt 100))
    let out_features := out_features ++ [fo.narrow perc_fill]
    let height_width_rat : D := fo.widen (fo.fdiv rot_rect.width rot_rect.height)
    let out_features := out_features ++ [fo.narrow height_width_rat]
    .ok out_features

/-! ## A model of IEEE-754 special values -/

/-- The values of an IEEE-754 binary format. Finite values are carried as exact
rationals: the rounding of finite results is not modelled, and a zero has no
sign (every zero behaves as `+0`). -/
inductive FVal where
  | fin (q : ℚ)
  | pinf
  | ninf
  | nan
deriving DecidableEq, Repr

/-- Whether the value is a finite number (neither an infinity nor a NaN). -/
def FVal.isFinite : FVal → Bool
  | .fin _ => true
  | _ => false

/-- The IEEE-754 negation. -/
def FVal.neg : FVal → FVal
  | .fin a => .fin (-a)
  | .pinf => .ninf
  | .ninf => .pinf
  | .nan => .nan

/-- The IEEE-754 sum. -/
def FVal.add : FVal → FVal → FVal
  | .fin a, .fin b => .fin (a + b)
  | .fin _, .pinf => .pinf
  | .fin _, .ninf => .ninf
  | .pinf, .fin _ => .pinf
  | .ninf, .fin _ => .ninf
  | .pinf, .pinf => .pinf
  | .ninf, .ninf => .ninf
  | _, _ => .nan

/-- The IEEE-754 difference. -/
def FVal.sub (x y : FVal) : FVal := FVal.add x (FVal.neg y)

/-- The infinity of the sign of `a`, and NaN for `a = 0`. -/
def FVal.signedInf (a : ℚ) : FVal :=
  if a = 0 then .nan else if 0 < a then .pinf else .ninf

/-- The IEEE-754 product: zero times an infinity is NaN. -/
def FVal.mul : FVal → FVal → FVal
  | .fin a, .fin b => .fin (a * b)
  | .fin a, .pinf => FVal.signedInf a
  | .fin a, .ninf => FVal.signedInf (-a)
  | .pinf, .fin b => FVal.signedInf b
  | .ninf, .fin b => FVal.signedInf (-b)
  | .pinf, .pinf => .pinf
  | .ninf, .ninf => .pinf
  | .pinf, .ninf => .ninf
  | .ninf, .pinf => .ninf
  | _, _ => .nan

/-- The IEEE-754 quotient: a non-zero finite value over zero is an infinity, zero
over zero is NaN, and no division traps. -/
def FVal.div : FVal → FVal → FVal
  | .fin a, .fin b => if b = 0 then FVal.signedInf a else .fin (a / b)
  | .fin _, .pinf => .fin 0
  | .fin _, .ninf => .fin 0
  | .pinf, .fin b => if 0 ≤ b then .pinf else .ninf
  | .ninf, .fin b => if 0 ≤ b then .ninf else .pinf
  | _, _ => .nan

/-- The IEEE-754 comparison `<`: false as soon as one side is NaN. -/
def FVal.lt : FVal → FVal → Bool
  | .fin a, .fin b => decide (a < b)
  | .fin _, .pinf => true
  | .ninf, .fin _ => true
  | .ninf, .pinf => true
  | _, _ => false

/-- The conversion to `int`: truncation toward zero; a value that is not finite
gives `INT_MIN`, as the x86 conversion instruction does. -/
def FVal.trunc : FVal → Int
  | .fin q => Int.tdiv q.num q.den
  | _ => -2147483648

/-- The arithmetic of `float` and `double` in the model `FVal`: both types share
the special values, and the two conversions between them keep the value. -/
def ieee : FloatOps FVal FVal where
  ofInt := fun n => FVal.fin n
  fmul := FVal.mul
  fdiv := FVal.div
  widen := fun x => x
  narrow := fun x => x
  trunc := FVal.trunc

/-! ## The functions of `orUtil`, from the specification -/

/-- Inserts an `(index, area)` pair into a list sorted by decreasing area, before
the first entry whose area is not larger. -/
def insert_by_area (x : Int × Int) : List (Int × Int) → List (Int × Int)
  | [] => [x]
  | y :: ys => if x.2 < y.2 then y :: insert_by_area x ys else x :: y :: ys

/-- Modelled from the spec: `get_top_N_largest_areas_index` of `orUtil`, which is
not in `src/`. §4.3 step 3: the `N` indices of largest area, ties broken by
original index order; with fewer than `N` areas the result is shorter. -/
def top_N_largest_areas_index (areas : List Int) (N : Int) : List Int :=
  let indexed := areas.enum.map (fun ia => ((ia.1 : Int), ia.2))
  let sorted := indexed.foldr insert_by_area []
  (sorted.map (fun ia => ia.1)).take N.toNat

/-- Modelled from the spec: `get_center_coordinates` of `orUtil`, which is not in
`src/`. §4.3 step 4: the point `(width / 2, height / 2)`. -/
def center_coordinates (src : Img uchar) : List Int :=
  [((Img.cols src / 2 : Nat) : Int), ((Img.rows src / 2 : Nat) : Int)]

/-- The squared Euclidean distance of a centroid to the image centre. -/
def center_dist2 (center : List Int) (c : FVal × FVal) : FVal :=
  let dx := FVal.sub c.1 (FVal.fin (center.getD 0 0))
  let dy := FVal.sub c.2 (FVal.fin (center.getD 1 0))
  FVal.add (FVal.mul dx dx) (FVal.mul dy dy)

/-- One step of the scan for the most central region: the candidate `id` replaces
the best one so far when it is strictly closer, or as close with a lower id. -/
def most_center_step (center : List Int) (centroids : List (FVal × FVal))
    (best : Option (Int × FVal)) (id : Int) : Option (Int × FVal) :=
  match vecAt? centroids id with
  | none => best
  | some c =>
    let d := center_dist2 center c
    match best with
    | none => some (id, d)
    | some (bid, bd) =>
      if FVal.lt d bd || (decide (d = bd) && decide (id < bid)) then some (id, d) else best

/-- Modelled from the spec: `get_id_with_most_center_centroids` of `orUtil`, which
is not in `src/`. §4.3 step 5 and §8: among the kept ids, the one whose centroid
is nearest to the image centre, the lower id winning a tie; label 0 is a
candidate like the others (§9). Distances are compared through their squares. -/
def id_with_most_center_centroids (center : List Int) (centroids : List (FVal × FVal))
    (ids : List Int) : Int :=
  match ids.foldl (most_center_step center centroids) none with
  | none => 0
  | some (id, _) => id

/-! ## A worked example

A 5 x 7 picture with three dark objects on a white background: a bar of three
pixels in the top-left corner, a single pixel at the centre, and a bar of two
pixels in the bottom-right corner. -/

/-- A white pixel. -/
def wh : Vec3b := ⟨255, 255, 255⟩

/-- A dark pixel. -/
def dk : Vec3b := ⟨0, 0, 0⟩

/-- The colour picture of the example. -/
def exampleImage : Img Vec3b :=
  [[dk, dk, dk, wh, wh, wh, wh],
   [wh, wh, wh, wh, wh, wh, wh],
   [wh, wh, wh, dk, wh, wh, wh],
   [wh, wh, wh, wh, wh, wh, wh],
   [wh, wh, wh, wh, wh, dk, dk]]

/-- The binary mask of the example: 255 on the three objects. -/
def exampleMask : Img uchar :=
  [[255, 255, 255, 0, 0, 0, 0],
   [0, 0, 0, 0, 0, 0, 0],
   [0, 0, 0, 255, 0, 0, 0],
   [0, 0, 0, 0, 0, 0, 0],
   [0, 0, 0, 0, 0, 255, 255]]

/-- The labelling of `exampleMask`: labels 1, 2, 3 in raster order, with the
bounding box, area and centroid of each label (label 0 is the background, of
29 pixels and centroid `(88/29, 60/29)`). -/
def exampleComponents : Components FVal where
  labels :=
    [[1, 1, 1, 0, 0, 0, 0],
     [0, 0, 0, 0, 0, 0, 0],
     [0, 0, 0, 2, 0, 0, 0],
     [0, 0, 0, 0, 0, 0, 0],
     [0, 0, 0, 0, 0, 3, 3]]
  stats :=
    [⟨0, 0, 7, 5, 29⟩, ⟨0, 0, 3, 1, 3⟩, ⟨3, 2, 1, 1, 1⟩, ⟨5, 4, 2, 1, 2⟩]
  centroids :=
    [(FVal.fin (88 / 29), FVal.fin (60 / 29)), (FVal.fin 1, FVal.fin 0),
     (FVal.fin 3, FVal.fin 2), (FVal.fin (11 / 2), FVal.fin 4)]

/-- The positions `(x, y)` of the white pixels of a one-channel row, from column `c` on. -/
def white_in_row (y : Nat) : Nat → List uchar → List (Int × Int)
  | _, [] => []
  | c, v :: vs =>
    if v = 255 then ((c : Int), (y : Int)) :: white_in_row y (c + 1) vs
    else white_in_row y (c + 1) vs

/-- The positions `(x, y)` of the white pixels of a one-channel image, from row `r` on. -/
def white_pixels : Nat → Img uchar → List (Int × Int)
  | _, [] => []
  | r, row :: rows => white_in_row r 0 row ++ white_pixels (r + 1) rows

/-- The extent `max - min` of a list of integers, 0 for the empty list. -/
def extent (l : List Int) : Int :=
  match l with
  | [] => 0
  | x :: xs => xs.foldl max x - xs.foldl min x

/-- The library of the example. The functions of `orUtil` that the specification
describes follow it. The others are stand-ins: `blur3x3` and `morphologyEx` return
their argument; the labelling is `exampleComponents`, the labelling of
`exampleMask`; the contour is the list of the white pixels; the Hu values are 0;
and the rectangle is the axis-parallel bounding rectangle of the contour, which
is the minimum-area rectangle of a single point (size 0 x 0). -/
def exampleLib : Lib FVal FVal where
  blur3x3 := fun img => img
  get_top_N_largest_areas_index := top_N_largest_areas_index
  get_center_coordinates := center_coordinates
  get_id_with_most_center_centroids := id_with_most_center_centroids
  get_contour_of_interest := fun m =>
    match m with
    | Mat.CV_8UC1 img => white_pixels 0 img
    | Mat.CV_8UC3 _ => []
  compute_log_scale_hu := fun _ _ => FVal.fin 0
  morphologyEx := fun img _ _ => img
  connectedComponentsWithStats := fun _ => exampleComponents
  minAreaRect := fun pts =>
    { center := (FVal.fin 0, FVal.fin 0)
      width := FVal.fin (extent (pts.map (fun p => p.1)))
      height := FVal.fin (extent (pts.map (fun p => p.2)))
      angle := FVal.fin 0 }
  putText := fun img => img

/-- Four colours: red, green, blue, white. -/
def examplePalette : List Vec3b :=
  [⟨255, 0, 0⟩, ⟨0, 255, 0⟩, ⟨0, 0, 255⟩, ⟨255, 255, 255⟩]

/-- Six colours: the four of `examplePalette`, then yellow and cyan. -/
def examplePalette6 : List Vec3b :=
  examplePalette ++ [⟨255, 255, 0⟩, ⟨0, 255, 255⟩]

/-- The outputs of `segment_and_color` on the example, single-channel mode, 4 regions. -/
def exampleSegment : SegmentAndColor where
  dst := Mat.CV_8UC1
    [[0, 0, 0, 0, 0, 0, 0],
     [0, 0, 0, 0, 0, 0, 0],
     [0, 0, 0, 255, 0, 0, 0],
     [0, 0, 0, 0, 0, 0, 0],
     [0, 0, 0, 0, 0, 0, 0]]
  out_area := 2
  out_centroid_of_interest := (3, 2)

/-! ## Basic facts about images -/

theorem Img.at?_map {α β : Type} (f : α → β) (m : Img α) (i j : Nat) :
    Img.at? (m.map (fun row => row.map f)) i j = (Img.at? m i j).map f := by
  unfold Img.at?
  rw [List.getElem?_map]
  cases m[i]? with
  | none => rfl
  | some row => simp [List.getElem?_map]

theorem Img.shape_map {α β : Type} (f : α → β) (m : Img α) :
    Img.shape (m.map (fun row => row.map f)) = Img.shape m := by
  unfold Img.shape
  rw [List.map_map]
  apply List.map_congr_left
  intro row _
  simp

theorem rgb_to_hsv_s_le (p : Vec3b) : rgb_to_hsv_s p ≤ 255 := by
  unfold rgb_to_hsv_s
  simp only
  split
  · exact Nat.zero_le _
  · rename_i h
    apply Nat.div_le_of_le_mul
    rw [Nat.mul_comm]
    exact Nat.mul_le_mul_right 255 (Nat.sub_le _ _)

/-! ## Facts about the loops -/

theorem mapE_forall₂ {ε α β : Type} (f : α → Except ε β) :
    ∀ (l : List α) (bs : List β), mapE f l = .ok bs → List.Forall₂ (fun a b => f a = .ok b) l bs
  | [], bs, h => by
    simp only [mapE, Except.ok.injEq] at h
    subst h
    exact List.Forall₂.nil
  | a :: l, bs, h => by
    unfold mapE at h
    cases hfa : f a with
    | error e => rw [hfa] at h; cases h
    | ok b =>
      rw [hfa] at h
      cases hl : mapE f l with
      | error e => rw [hl] at h; cases h
      | ok bs2 =>
        rw [hl] at h
        simp only [Except.ok.injEq] at h
        subst h
        exact List.Forall₂.cons hfa (mapE_forall₂ f l bs2 hl)

theorem mapE_total {ε α β : Type} (f : α → Except ε β) :
    ∀ (l : List α), (∀ a ∈ l, ∃ b, f a = .ok b) → ∃ bs, mapE f l = .ok bs
  | [], _ => ⟨[], rfl⟩
  | a :: l, h => by
    obtain ⟨b, hb⟩ := h a (List.mem_cons_self a l)
    obtain ⟨bs, hbs⟩ := mapE_total f l (fun x hx => h x (List.mem_cons_of_mem a hx))
    exact ⟨b :: bs, by simp only [mapE, hb, hbs]⟩

theorem mapE_range_get {ε β : Type} (f : Nat → Except ε β) (n : Nat) (bs : List β)
    (h : mapE f (List.range n) = .ok bs) :
    bs.length = n ∧ ∀ i, i < n → ∃ b, bs[i]? = some b ∧ f i = .ok b := by
  have h2 := mapE_forall₂ f _ _ h
  have hlen : bs.length = n := by
    have := h2.length_eq
    simpa using this.symm
  refine ⟨hlen, fun i hi => ?_⟩
  rw [List.forall₂_iff_get] at h2
  have hi2 : i < bs.length := hlen ▸ hi
  have hi1 : i < (List.range n).length := by simpa using hi
  refine ⟨bs[i], List.getElem?_eq_getElem hi2, ?_⟩
  have := h2.2 i hi1 hi2
  simpa using this

theorem forPixels_ok {α : Type} (rows cols : Nat) (g : Nat → Nat → Except Fault α)
    (img : Img α) (h : forPixels rows cols g = .ok img) :
    Img.rows img = rows ∧ (∀ row ∈ img, row.length = cols) ∧
    ∀ r c, r < rows → c < cols → ∃ v, Img.at? img r c = some v ∧ g r c = .ok v := by
  unfold forPixels at h
  obtain ⟨hlen, hget⟩ := mapE_range_get _ rows img h
  refine ⟨hlen, ?_, ?_⟩
  · intro row hrow
    obtain ⟨r, hr, hrr⟩ := List.getElem_of_mem hrow
    obtain ⟨row2, h1, h2⟩ := hget r (hlen ▸ hr)
    rw [List.getElem?_eq_getElem hr, hrr] at h1
    cases h1
    exact (mapE_range_get _ cols row h2).1
  · intro r c hr hc
    obtain ⟨row, h1, h2⟩ := hget r hr
    obtain ⟨v, h3, h4⟩ := (mapE_range_get _ cols row h2).2 c hc
    exact ⟨v, by simp only [Img.at?, h1, h3], h4⟩

theorem forPixels_total {α : Type} (rows cols : Nat) (g : Nat → Nat → Except Fault α)
    (h : ∀ r c, r < rows → c < cols → ∃ v, g r c = .ok v) :
    ∃ img, forPixels rows cols g = .ok img := by
  unfold forPixels
  apply mapE_total
  intro r hr
  apply mapE_total
  intro c hc
  exact h r c (List.mem_range.mp hr) (List.mem_range.mp hc)

/-! ## Thresholding: theorems -/

/-- C1: for every pixel of the source, `rgb_to_hsv` stores at the same position
exactly 0 when the maximum channel is 0 and otherwise exactly
`255 * (max - min) / max` rounded down; the cast to `uchar` leaves the computed
value unchanged; and a pixel with maximum 200 and minimum 50 gets 191. -/
theorem rgb_to_hsv_saturation (src : Img Vec3b) (i j : Nat) (p : Vec3b)
    (h : Img.at? src i j = some p) :
    ∃ s : uchar, Img.at? (rgb_to_hsv src) i j = some s ∧
      (max p.c0.val (max p.c1.val p.c2.val) = 0 → s.val = 0) ∧
      (max p.c0.val (max p.c1.val p.c2.val) ≠ 0 →
        s.val = 255 * (max p.c0.val (max p.c1.val p.c2.val)
                        - min p.c0.val (min p.c1.val p.c2.val))
                  / max p.c0.val (max p.c1.val p.c2.val)) ∧
      s.val = rgb_to_hsv_s p ∧
      (max p.c0.val (max p.c1.val p.c2.val) = 200 →
        min p.c0.val (min p.c1.val p.c2.val) = 50 → s.val = 191) := by
  have hs : (rgb_to_hsv_pixel p).val = rgb_to_hsv_s p := by
    unfold rgb_to_hsv_pixel toUchar
    exact Nat.mod_eq_of_lt (Nat.lt_succ_of_le (rgb_to_hsv_s_le p))
  refine ⟨rgb_to_hsv_pixel p, ?_, ?_, ?_, hs, ?_⟩
  · unfold rgb_to_hsv
    rw [Img.at?_map, h]
    rfl
  · intro h0
    rw [hs]
    unfold rgb_to_hsv_s
    simp only [h0, if_true]
  · intro h0
    rw [hs]
    unfold rgb_to_hsv_s
    simp only [h0, if_false]
  · intro hmax hmin
    rw [hs]
    unfold rgb_to_hsv_s
    simp only [hmax, hmin]
    decide

theorem rgb_to_hsv_saturation_witness :
    Img.at? [[(⟨200, 50, 100⟩ : Vec3b)]] 0 0 = some ⟨200, 50, 100⟩ ∧
    ∃ s : uchar, Img.at? (rgb_to_hsv [[⟨200, 50, 100⟩]]) 0 0 = some s ∧
      (max (200 : uchar).val (max (50 : uchar).val (100 : uchar).val) = 0 → s.val = 0) ∧
      (max (200 : uchar).val (max (50 : uchar).val (100 : uchar).val) ≠ 0 →
        s.val = 255 * (max (200 : uchar).val (max (50 : uchar).val (100 : uchar).val)
                        - min (200 : uchar).val (min (50 : uchar).val (100 : uchar).val))
                  / max (200 : uchar).val (max (50 : uchar).val (100 : uchar).val)) ∧
      s.val = rgb_to_hsv_s ⟨200, 50, 100⟩ ∧
      (max (200 : uchar).val (max (50 : uchar).val (100 : uchar).val) = 200 →
        min (200 : uchar).val (min (50 : uchar).val (100 : uchar).val) = 50 → s.val = 191) :=
  ⟨rfl, rgb_to_hsv_saturation [[⟨200, 50, 100⟩]] 0 0 ⟨200, 50, 100⟩ rfl⟩

theorem sat_mark_cases (n : Nat) :
    (sat_mark n = 0 ↔ n < 35) ∧ (sat_mark n = 255 ↔ ¬ n < 35) := by
  unfold sat_mark
  by_cases h : n < 35
  · simp only [h, if_true, not_true_eq_false, iff_false, true_and, iff_true]
    decide
  · simp only [h, if_false, iff_false, not_false_eq_true, iff_true, and_true]
    decide

theorem rgb_mark_cases (p : Vec3b) :
    (rgb_mark p = 255 ↔ (p.c0.val + p.c1.val + p.c2.val) / 3 < 110) ∧
    (rgb_mark p = 0 ↔ ¬ (p.c0.val + p.c1.val + p.c2.val) / 3 < 110) := by
  unfold rgb_mark
  by_cases h : (p.c0.val + p.c1.val + p.c2.val) / 3 < 110
  · simp only [h, if_true, not_true_eq_false, iff_false, iff_true]
    decide
  · simp only [h, if_false, iff_false, not_false_eq_true, iff_true]
    decide

/-- C8: when `blur3x3` returns an image of the size of `src`, the mask of
`thresholding_sat` has the size of `src`; at every position its value is 0
exactly when the saturation `rgb_to_hsv` computes for the blurred pixel is below
35 and 255 exactly when it is not; and no pixel of the mask holds another value. -/
theorem thresholding_sat_mask (blur3x3 : Img Vec3b → Img Vec3b) (src : Img Vec3b)
    (hblur : Img.shape (blur3x3 src) = Img.shape src) :
    Img.shape (thresholding_sat blur3x3 src) = Img.shape src ∧
    (∀ i j (s : uchar), Img.at? (rgb_to_hsv (blur3x3 src)) i j = some s →
      ∃ d : uchar, Img.at? (thresholding_sat blur3x3 src) i j = some d ∧
        (d = 0 ↔ s.val < 35) ∧ (d = 255 ↔ ¬ s.val < 35)) ∧
    (∀ i j (d : uchar), Img.at? (thresholding_sat blur3x3 src) i j = some d →
      d = 0 ∨ d = 255) := by
  refine ⟨?_, ?_, ?_⟩
  · unfold thresholding_sat rgb_to_hsv
    rw [Img.shape_map, Img.shape_map, hblur]
  · intro i j s hs
    refine ⟨sat_mark s.val, ?_, sat_mark_cases s.val⟩
    unfold thresholding_sat
    simp only
    rw [Img.at?_map, hs]
    rfl
  · intro i j d hd
    unfold thresholding_sat at hd
    simp only at hd
    rw [Img.at?_map] at hd
    cases hs : Img.at? (rgb_to_hsv (blur3x3 src)) i j with
    | none => rw [hs] at hd; cases hd
    | some s =>
      rw [hs] at hd
      simp only [Option.map_some', Option.some.injEq] at hd
      subst hd
      by_cases h : s.val < 35
      · exact Or.inl ((sat_mark_cases s.val).1.2 h)
      · exact Or.inr ((sat_mark_cases s.val).2.2 h)

theorem thresholding_sat_mask_witness :
    Img.shape (thresholding_sat (fun img => img) exampleImage) = Img.shape exampleImage ∧
    (∀ i j (s : uchar), Img.at? (rgb_to_hsv exampleImage) i j = some s →
      ∃ d : uchar, Img.at? (thresholding_sat (fun img => img) exampleImage) i j = some d ∧
        (d = 0 ↔ s.val < 35) ∧ (d = 255 ↔ ¬ s.val < 35)) ∧
    (∀ i j (d : uchar), Img.at? (thresholding_sat (fun img => img) exampleImage) i j = some d →
      d = 0 ∨ d = 255) :=
  thresholding_sat_mask (fun img => img) exampleImage rfl

/-- C9: when `blur3x3` returns an image of the size of `src`, the mask of
`thresholding_rgb` has the size of `src`; at every position its value is 255
exactly when the integer average `(r + g + b) / 3` of the blurred pixel is below
110, which is the same as `r + g + b ≤ 329`, and 0 exactly when it is not; and
no pixel of the mask holds another value. -/
theorem thresholding_rgb_mask (blur3x3 : Img Vec3b → Img Vec3b) (src : Img Vec3b)
    (hblur : Img.shape (blur3x3 src) = Img.shape src) :
    Img.shape (thresholding_rgb blur3x3 src) = Img.shape src ∧
    (∀ i j (p : Vec3b), Img.at? (blur3x3 src) i j = some p →
      ∃ d : uchar, Img.at? (thresholding_rgb blur3x3 src) i j = some d ∧
        (d = 255 ↔ (p.c0.val + p.c1.val + p.c2.val) / 3 < 110) ∧
        (d = 255 ↔ p.c0.val + p.c1.val + p.c2.val ≤ 329) ∧
        (d = 0 ↔ ¬ (p.c0.val + p.c1.val + p.c2.val) / 3 < 110)) ∧
    (∀ i j (d : uchar), Img.at? (thresholding_rgb blur3x3 src) i j = some d →
      d = 0 ∨ d = 255) := by
  refine ⟨?_, ?_, ?_⟩
  · unfold thresholding_rgb
    rw [Img.shape_map, hblur]
  · intro i j p hp
    have hiff : (p.c0.val + p.c1.val + p.c2.val) / 3 < 110 ↔
        p.c0.val + p.c1.val + p.c2.val ≤ 329 := by omega
    refine ⟨rgb_mark p, ?_, (rgb_mark_cases p).1, (rgb_mark_cases p).1.trans hiff,
      (rgb_mark_cases p).2⟩
    unfold thresholding_rgb
    simp only
    rw [Img.at?_map, hp]
    rfl
  · intro i j d hd
    unfold thresholding_rgb at hd
    simp only at hd
    rw [Img.at?_map] at hd
    cases hp : Img.at? (blur3x3 src) i j with
    | none => rw [hp] at hd; cases hd
    | some p =>
      rw [hp] at hd
      simp only [Option.map_some', Option.some.injEq] at hd
      subst hd
      by_cases h : (p.c0.val + p.c1.val + p.c2.val) / 3 < 110
      · exact Or.inr ((rgb_mark_cases p).1.2 h)
      · exact Or.inl ((rgb_mark_cases p).2.2 h)

theorem thresholding_rgb_mask_witness :
    Img.shape (thresholding_rgb (fun img => img) exampleImage) = Img.shape exampleImage ∧
    (∀ i j (p : Vec3b), Img.at? exampleImage i j = some p →
      ∃ d : uchar, Img.at? (thresholding_rgb (fun img => img) exampleImage) i j = some d ∧
        (d = 255 ↔ (p.c0.val + p.c1.val + p.c2.val) / 3 < 110) ∧
        (d = 255 ↔ p.c0.val + p.c1.val + p.c2.val ≤ 329) ∧
        (d = 0 ↔ ¬ (p.c0.val + p.c1.val + p.c2.val) / 3 < 110)) ∧
    (∀ i j (d : uchar), Img.at? (thresholding_rgb (fun img => img) exampleImage) i j = some d →
      d = 0 ∨ d = 255) :=
  thresholding_rgb_mask (fun img => img) exampleImage rfl

/-! ## Facts about `segment_and_color` -/

theorem vecAt?_isSome {α : Type} (v : List α) (i : Int) (h0 : 0 ≤ i)
    (h1 : i < v.length) : ∃ a, vecAt? v i = some a := by
  unfold vecAt?
  have hlt : i.toNat < v.length := by omega
  refine ⟨v[i.toNat], ?_⟩
  rw [if_neg (by omega)]
  exact List.getElem?_eq_getElem hlt

theorem regionid_colors_loop_total (ids : List Int) (colors : List Vec3b) :
    ∀ (idxs : List Nat) (m : List (Int × Vec3b)),
      (∀ i ∈ idxs, i < ids.length ∧ i < colors.length) →
      ∃ m2, regionid_colors_loop ids colors idxs m = .ok m2
  | [], m, _ => ⟨m, rfl⟩
  | i :: is, m, h => by
    obtain ⟨h1, h2⟩ := h i (List.mem_cons_self i is)
    unfold regionid_colors_loop
    rw [List.getElem?_eq_getElem h1, List.getElem?_eq_getElem h2]
    exact regionid_colors_loop_total ids colors is _
      (fun x hx => h x (List.mem_cons_of_mem i hx))

theorem regionid_colors_total (ids : List Int) (colors : List Vec3b) (max_regions : Int)
    (h_ids : 0 < ids.length)
    (h_loop : ∀ i : Nat, 1 ≤ i → (i : Int) < max_regions →
      i < ids.length ∧ i < colors.length) :
    ∃ m, regionid_colors ids colors max_regions = .ok m := by
  unfold regionid_colors
  rw [List.getElem?_eq_getElem h_ids]
  apply regionid_colors_loop_total
  intro i hi
  rw [List.mem_range'_1] at hi
  exact h_loop i hi.1 (by omega)

/-- The run of `segment_and_color` once its reads before the painting are in range. -/
theorem segment_and_color_of_parts {F D : Type} (fo : FloatOps F D) (lib : Lib F D)
    (src : Img uchar) (random_colors : List Vec3b) (max_regions : Int) (isColorful : Bool)
    (seg : Segmentation) (row3 : StatRow) (m : List (Int × Vec3b))
    (hseg : segmentation fo lib src max_regions = .ok seg)
    (hrow : seg.out_stats[3]? = some row3)
    (hmap : regionid_colors seg.out_ids_to_keep random_colors max_regions = .ok m) :
    segment_and_color fo lib src random_colors max_regions isColorful =
      if isColorful then
        match color_regions src seg.out_label seg.out_ids_to_keep random_colors with
        | .error e => .error e
        | .ok painted =>
          .ok { dst := Mat.CV_8UC3 (lib.putText painted)
                out_area := row3.area
                out_centroid_of_interest := seg.out_centroid_of_interest }
      else
        match keep_region_of_interest src seg.out_label seg.out_id_of_interest with
        | .error e => .error e
        | .ok painted =>
          .ok { dst := Mat.CV_8UC1 painted
                out_area := row3.area
                out_centroid_of_interest := seg.out_centroid_of_interest } := by
  unfold segment_and_color
  simp only [hseg, hrow, hmap]

/-- The run of `segmentation` once the centroid table has a row for the region of
interest. -/
theorem segmentation_of_centroid {F D : Type} (fo : FloatOps F D) (lib : Lib F D)
    (src : Img uchar) (max_regions : Int) (xy : D × D)
    (h : vecAt? (lib.connectedComponentsWithStats src).centroids
          (lib.get_id_with_most_center_centroids (lib.get_center_coordinates src)
            (lib.connectedComponentsWithStats src).centroids
            (lib.get_top_N_largest_areas_index
              ((lib.connectedComponentsWithStats src).stats.map (fun row => row.area))
              max_regions)) = some xy) :
    segmentation fo lib src max_regions =
      .ok { out_label := (lib.connectedComponentsWithStats src).labels
            out_ids_to_keep := lib.get_top_N_largest_areas_index
              ((lib.connectedComponentsWithStats src).stats.map (fun row => row.area))
              max_regions
            out_id_of_interest :=
              lib.get_id_with_most_center_centroids (lib.get_center_coordinates src)
                (lib.connectedComponentsWithStats src).centroids
                (lib.get_top_N_largest_areas_index
                  ((lib.connectedComponentsWithStats src).stats.map (fun row => row.area))
                  max_regions)
            out_stats := (lib.connectedComponentsWithStats src).stats
            out_centroid_of_interest := (fo.trunc xy.1, fo.trunc xy.2) } := by
  unfold segmentation
  simp only [h]

theorem keep_region_of_interest_total (src : Img uchar) (out_label : Img Int) (roi : Int)
    (h_label : ∀ r, r < Img.rows src → ∀ c, c < Img.cols src →
      (Img.at? out_label r c).isSome = true) :
    ∃ img, keep_region_of_interest src out_label roi = .ok img := by
  unfold keep_region_of_interest
  apply forPixels_total
  intro r c hr hc
  have := h_label r hr c hc
  cases hl : Img.at? out_label r c with
  | none => rw [hl] at this; cases this
  | some l => exact ⟨_, rfl⟩

theorem keep_region_of_interest_ok (src : Img uchar) (out_label : Img Int) (roi : Int)
    (img : Img uchar) (h : keep_region_of_interest src out_label roi = .ok img) :
    Img.rows img = Img.rows src ∧ (∀ row ∈ img, row.length = Img.cols src) ∧
    ∀ r, r < Img.rows src → ∀ c, c < Img.cols src →
      ∃ (l : Int) (v : uchar), Img.at? out_label r c = some l ∧ Img.at? img r c = some v ∧
        (v = 255 ↔ l = roi) ∧ (v = 0 ↔ l ≠ roi) := by
  unfold keep_region_of_interest at h
  obtain ⟨hrows, hcols, hpix⟩ := forPixels_ok _ _ _ img h
  refine ⟨hrows, hcols, ?_⟩
  intro r hr c hc
  obtain ⟨v, hv, hg⟩ := hpix r c hr hc
  cases hl : Img.at? out_label r c with
  | none => rw [hl] at hg; cases hg
  | some l =>
    rw [hl] at hg
    simp only [Except.ok.injEq] at hg
    refine ⟨l, v, rfl, hv, ?_, ?_⟩
    · rw [← hg]
      by_cases hlr : l = roi
      · simp only [hlr, if_true]
      · simp only [hlr, if_false, iff_false]
        decide
    · rw [← hg]
      by_cases hlr : l = roi
      · simp only [hlr, if_true, ne_eq, not_true_eq_false, iff_false]
        decide
      · simp only [hlr, if_false, ne_eq, not_false_eq_true]

theorem vecAt?_in_range {α : Type} (v : List α) (i : Int) (a : α) (h : vecAt? v i = some a) :
    0 ≤ i ∧ i < v.length := by
  unfold vecAt? at h
  by_cases hneg : i < 0
  · rw [if_pos hneg] at h; cases h
  · rw [if_neg hneg] at h
    have hlt : i.toNat < v.length := by
      by_contra hge
      rw [List.getElem?_eq_none (by omega)] at h
      cases h
    omega

theorem regionid_colors_loop_in_range (ids : List Int) (colors : List Vec3b) :
    ∀ (idxs : List Nat) (m m2 : List (Int × Vec3b)),
      regionid_colors_loop ids colors idxs m = .ok m2 →
      ∀ i ∈ idxs, i < ids.length ∧ i < colors.length
  | [], _, _, _ => fun i hi => by cases hi
  | j :: js, m, m2, h => by
    unfold regionid_colors_loop at h
    cases h1 : ids[j]? with
    | none => rw [h1] at h; cases h
    | some id =>
      rw [h1] at h
      cases h2 : colors[j]? with
      | none => rw [h2] at h; cases h
      | some color =>
        rw [h2] at h
        simp only at h
        have hrec := regionid_colors_loop_in_range ids colors js _ m2 h
        intro i hi
        rcases List.mem_cons.mp hi with hij | hi2
        · subst hij
          constructor
          · by_contra hge
            rw [List.getElem?_eq_none (by omega)] at h1
            cases h1
          · by_contra hge
            rw [List.getElem?_eq_none (by omega)] at h2
            cases h2
        · exact hrec i hi2

theorem regionid_colors_in_range (ids : List Int) (colors : List Vec3b) (max_regions : Int)
    (m : List (Int × Vec3b)) (h : regionid_colors ids colors max_regions = .ok m) :
    0 < ids.length ∧
    ∀ i : Nat, 1 ≤ i → (i : Int) < max_regions → i < ids.length ∧ i < colors.length := by
  unfold regionid_colors at h
  cases h0 : ids[0]? with
  | none => rw [h0] at h; cases h
  | some id0 =>
    rw [h0] at h
    simp only at h
    constructor
    · by_contra hge
      rw [List.getElem?_eq_none (by omega)] at h0
      cases h0
    · intro i hi1 hi2
      apply regionid_colors_loop_in_range ids colors _ _ m h i
      rw [List.mem_range'_1]
      omega

theorem color_regions_ok (src : Img uchar) (out_label : Img Int) (ids : List Int)
    (random_colors : List Vec3b) (img : Img Vec3b)
    (h : color_regions src out_label ids random_colors = .ok img) :
    Img.rows img = Img.rows src ∧ (∀ row ∈ img, row.length = Img.cols src) ∧
    ∀ r, r < Img.rows src → ∀ c, c < Img.cols src →
      ∃ (l : Int) (v : Vec3b), Img.at? out_label r c = some l ∧ Img.at? img r c = some v ∧
        (l ∉ ids → v = Vec3b.black) ∧ (l ∈ ids → vecAt? random_colors l = some v) := by
  unfold color_regions at h
  obtain ⟨hrows, hcols, hpix⟩ := forPixels_ok _ _ _ img h
  refine ⟨hrows, hcols, ?_⟩
  intro r hr c hc
  obtain ⟨v, hv, hg⟩ := hpix r c hr hc
  cases hl : Img.at? out_label r c with
  | none => rw [hl] at hg; cases hg
  | some l =>
    rw [hl] at hg
    simp only at hg
    refine ⟨l, v, rfl, hv, ?_, ?_⟩
    · intro hnot
      have hcount : ids.count l = 0 := List.count_eq_zero_of_not_mem hnot
      rw [if_neg (by rw [hcount]; exact fun hne => hne rfl)] at hg
      exact (Except.ok.inj hg).symm
    · intro hmem
      have hcount : ids.count l ≠ 0 := Nat.pos_iff_ne_zero.mp (List.count_pos_iff.mpr hmem)
      rw [if_pos hcount] at hg
      cases hc2 : vecAt? random_colors l with
      | none => rw [hc2] at hg; cases hg
      | some color =>
        rw [hc2] at hg
        rw [Except.ok.inj hg]

/-- Every completed run of `segment_and_color`, in either mode, has made its reads
in range: the region of interest has a row in the centroid table, the statistics
table has a row 3, the kept-ids list is not empty, the kept-ids list and the
palette have an entry `i` for `1 ≤ i < max_regions`, and the label image covers
the mask. -/
theorem segment_and_color_reads_in_range {F D : Type} (fo : FloatOps F D) (lib : Lib F D)
    (src : Img uchar) (random_colors : List Vec3b) (max_regions : Int) (isColorful : Bool)
    (out : SegmentAndColor)
    (h : segment_and_color fo lib src random_colors max_regions isColorful = .ok out) :
    (0 ≤ lib.get_id_with_most_center_centroids (lib.get_center_coordinates src)
        (lib.connectedComponentsWithStats src).centroids
        (lib.get_top_N_largest_areas_index
          ((lib.connectedComponentsWithStats src).stats.map (fun row => row.area))
          max_regions) ∧
      lib.get_id_with_most_center_centroids (lib.get_center_coordinates src)
        (lib.connectedComponentsWithStats src).centroids
        (lib.get_top_N_largest_areas_index
          ((lib.connectedComponentsWithStats src).stats.map (fun row => row.area))
          max_regions) < (lib.connectedComponentsWithStats src).centroids.length) ∧
    3 < (lib.connectedComponentsWithStats src).stats.length ∧
    0 < (lib.get_top_N_largest_areas_index
          ((lib.connectedComponentsWithStats src).stats.map (fun row => row.area))
          max_regions).length ∧
    (∀ i : Nat, 1 ≤ i → (i : Int) < max_regions →
      i < (lib.get_top_N_largest_areas_index
          ((lib.connectedComponentsWithStats src).stats.map (fun row => row.area))
          max_regions).length ∧ i < random_colors.length) ∧
    (∀ r, r < Img.rows src → ∀ c, c < Img.cols src →
      (Img.at? (lib.connectedComponentsWithStats src).labels r c).isSome = true) := by
  unfold segment_and_color at h
  cases hxy : vecAt? (lib.connectedComponentsWithStats src).centroids
      (lib.get_id_with_most_center_centroids (lib.get_center_coordinates src)
        (lib.connectedComponentsWithStats src).centroids
        (lib.get_top_N_largest_areas_index
          ((lib.connectedComponentsWithStats src).stats.map (fun row => row.area))
          max_regions)) with
  | none =>
    simp only [segmentation, hxy] at h
    cases h
  | some xy =>
    rw [segmentation_of_centroid fo lib src max_regions xy hxy] at h
    simp only at h
    cases hrow : (lib.connectedComponentsWithStats src).stats[3]? with
    | none => rw [hrow] at h; cases h
    | some row3 =>
      rw [hrow] at h
      simp only at h
      cases hm : regionid_colors (lib.get_top_N_largest_areas_index
          ((lib.connectedComponentsWithStats src).stats.map (fun row => row.area))
          max_regions) random_colors max_regions with
      | error e => rw [hm] at h; cases h
      | ok m =>
        rw [hm] at h
        have hstats : 3 < (lib.connectedComponentsWithStats src).stats.length := by
          by_contra hge
          rw [List.getElem?_eq_none (by omega)] at hrow
          cases hrow
        refine ⟨vecAt?_in_range _ _ xy hxy, hstats, (regionid_colors_in_range _ _ _ m hm).1,
          (regionid_colors_in_range _ _ _ m hm).2, ?_⟩
        cases isColorful with
        | true =>
          simp only [if_true] at h
          cases hp : color_regions src (lib.connectedComponentsWithStats src).labels
              (lib.get_top_N_largest_areas_index
                ((lib.connectedComponentsWithStats src).stats.map (fun row => row.area))
                max_regions) random_colors with
          | error e => rw [hp] at h; cases h
          | ok img =>
            intro r hr c hc
            obtain ⟨l, v, hl, _⟩ := (color_regions_ok _ _ _ _ img hp).2.2 r hr c hc
            rw [hl]
            rfl
        | false =>
          simp only [Bool.false_eq_true, if_false] at h
          cases hp : keep_region_of_interest src (lib.connectedComponentsWithStats src).labels
              (lib.get_id_with_most_center_centroids (lib.get_center_coordinates src)
                (lib.connectedComponentsWithStats src).centroids
                (lib.get_top_N_largest_areas_index
                  ((lib.connectedComponentsWithStats src).stats.map (fun row => row.area))
                  max_regions)) with
          | error e => rw [hp] at h; cases h
          | ok img =>
            intro r hr c hc
            obtain ⟨l, v, hl, _⟩ := (keep_region_of_interest_ok _ _ _ img hp).2.2 r hr c hc
            rw [hl]
            rfl

/-- When the kept-ids list is shorter than `max_regions`, no run of
`segment_and_color` completes: one of its reads is out of range. -/
theorem segment_and_color_short_kept_list {F D : Type} (fo : FloatOps F D) (lib : Lib F D)
    (src : Img uchar) (random_colors : List Vec3b) (max_regions : Int) (isColorful : Bool)
    (hshort : ((lib.get_top_N_largest_areas_index
        ((lib.connectedComponentsWithStats src).stats.map (fun row => row.area))
        max_regions).length : Int) < max_regions) :
    ∀ out : SegmentAndColor,
      segment_and_color fo lib src random_colors max_regions isColorful ≠ .ok out := by
  intro out h
  obtain ⟨_, _, hpos, hloop, _⟩ := segment_and_color_reads_in_range fo lib src random_colors
    max_regions isColorful out h
  have := (hloop _ hpos hshort).1
  omega

/-- In every completed run of `segment_and_color`, `out_area` is the area entry of
row 3 of the statistics table. -/
theorem segment_and_color_out_area_row_3 {F D : Type} (fo : FloatOps F D) (lib : Lib F D)
    (src : Img uchar) (random_colors : List Vec3b) (max_regions : Int) (isColorful : Bool)
    (out : SegmentAndColor)
    (h : segment_and_color fo lib src random_colors max_regions isColorful = .ok out) :
    ∃ row3 : StatRow, (lib.connectedComponentsWithStats src).stats[3]? = some row3 ∧
      out.out_area = row3.area := by
  obtain ⟨hc, hstats, hpos, hloop, _⟩ := segment_and_color_reads_in_range fo lib src
    random_colors max_regions isColorful out h
  obtain ⟨xy, hxy⟩ := vecAt?_isSome _ _ hc.1 hc.2
  have hseg := segmentation_of_centroid fo lib src max_regions xy hxy
  obtain ⟨m, hm⟩ := regionid_colors_total _ random_colors max_regions hpos hloop
  have hrow := List.getElem?_eq_getElem hstats
  have hrun := segment_and_color_of_parts fo lib src random_colors max_regions isColorful
    _ _ m hseg hrow hm
  rw [hrun] at h
  refine ⟨_, hrow, ?_⟩
  cases isColorful with
  | true =>
    simp only [if_true] at h
    split at h
    · cases h
    · rw [← Except.ok.inj h]
  | false =>
    simp only [Bool.false_eq_true, if_false] at h
    split at h
    · cases h
    · rw [← Except.ok.inj h]

/-- C10: in the single-channel mode, when the reads `segment_and_color` makes are in
range (the region of interest has a row in the centroid table, the statistics
table has a row 3, the kept-ids list and the palette have an entry `i` for
`1 ≤ i < max_regions`, and the label image covers the mask), the run completes,
the output has the rows and columns of the input mask, and each pixel is 255
exactly when its label is the region-of-interest id and 0 exactly when it is not. -/
theorem segment_and_color_single_channel {F D : Type} (fo : FloatOps F D) (lib : Lib F D)
    (src : Img uchar) (random_colors : List Vec3b) (max_regions : Int)
    (cc : Components D) (hcc : lib.connectedComponentsWithStats src = cc)
    (ids : List Int)
    (hids : lib.get_top_N_largest_areas_index (cc.stats.map (fun row => row.area))
      max_regions = ids)
    (roi : Int)
    (hroi : lib.get_id_with_most_center_centroids (lib.get_center_coordinates src)
      cc.centroids ids = roi)
    (h_centroid : 0 ≤ roi ∧ roi < cc.centroids.length)
    (h_stats : 3 < cc.stats.length)
    (h_ids : 0 < ids.length)
    (h_loop : ∀ i : Nat, 1 ≤ i → (i : Int) < max_regions →
      i < ids.length ∧ i < random_colors.length)
    (h_label : ∀ r, r < Img.rows src → ∀ c, c < Img.cols src →
      (Img.at? cc.labels r c).isSome = true) :
    ∃ (out : SegmentAndColor) (img : Img uchar),
      segment_and_color fo lib src random_colors max_regions false = .ok out ∧
      out.dst = Mat.CV_8UC1 img ∧
      Img.rows img = Img.rows src ∧ (∀ row ∈ img, row.length = Img.cols src) ∧
      ∀ r, r < Img.rows src → ∀ c, c < Img.cols src →
        ∃ (l : Int) (v : uchar), Img.at? cc.labels r c = some l ∧ Img.at? img r c = some v ∧
          (v = 255 ↔ l = roi) ∧ (v = 0 ↔ l ≠ roi) := by
  subst hcc hids hroi
  obtain ⟨xy, hxy⟩ := vecAt?_isSome _ _ h_centroid.1 h_centroid.2
  have hseg := segmentation_of_centroid fo lib src max_regions xy hxy
  obtain ⟨m, hm⟩ := regionid_colors_total _ random_colors max_regions h_ids h_loop
  have hrow := List.getElem?_eq_getElem h_stats
  have hrun := segment_and_color_of_parts fo lib src random_colors max_regions false _ _ m
    hseg hrow hm
  obtain ⟨img, himg⟩ := keep_region_of_interest_total src _
    (lib.get_id_with_most_center_centroids (lib.get_center_coordinates src)
      (lib.connectedComponentsWithStats src).centroids
      (lib.get_top_N_largest_areas_index
        ((lib.connectedComponentsWithStats src).stats.map (fun row => row.area))
        max_regions)) h_label
  obtain ⟨hrows, hcols, hpix⟩ := keep_region_of_interest_ok _ _ _ img himg
  simp only [himg, Bool.false_eq_true, if_false] at hrun
  exact ⟨_, img, hrun, rfl, hrows, hcols, hpix⟩

theorem segment_and_color_single_channel_witness :
    ∃ (out : SegmentAndColor) (img : Img uchar),
      segment_and_color ieee exampleLib exampleMask examplePalette 4 false = .ok out ∧
      out.dst = Mat.CV_8UC1 img ∧
      Img.rows img = Img.rows exampleMask ∧
      (∀ row ∈ img, row.length = Img.cols exampleMask) ∧
      ∀ r, r < Img.rows exampleMask → ∀ c, c < Img.cols exampleMask →
        ∃ (l : Int) (v : uchar), Img.at? exampleComponents.labels r c = some l ∧
          Img.at? img r c = some v ∧ (v = 255 ↔ l = 2) ∧ (v = 0 ↔ l ≠ 2) :=
  segment_and_color_single_channel ieee exampleLib exampleMask examplePalette 4
    exampleComponents rfl [0, 1, 3, 2] (by decide) 2 (by decide!)
    (by decide) (by decide) (by decide)
    (fun i h1 h2 => by
      have h3 : i < 4 := by omega
      exact ⟨h3, h3⟩)
    (by decide)

theorem color_regions_total (src : Img uchar) (out_label : Img Int) (ids : List Int)
    (random_colors : List Vec3b)
    (h_label : ∀ r, r < Img.rows src → ∀ c, c < Img.cols src →
      (Img.at? out_label r c).isSome = true)
    (h_palette : ∀ l ∈ ids, 0 ≤ l ∧ l < random_colors.length) :
    ∃ img, color_regions src out_label ids random_colors = .ok img := by
  unfold color_regions
  apply forPixels_total
  intro r c hr hc
  have := h_label r hr c hc
  cases hl : Img.at? out_label r c with
  | none => rw [hl] at this; cases this
  | some l =>
    simp only
    by_cases hcount : ids.count l ≠ 0
    · rw [if_pos hcount]
      have hmem : l ∈ ids := List.count_pos_iff.mp (Nat.pos_of_ne_zero hcount)
      obtain ⟨color, hcolor⟩ := vecAt?_isSome random_colors l (h_palette l hmem).1
        (h_palette l hmem).2
      rw [hcolor]
      exact ⟨color, rfl⟩
    · rw [if_neg hcount]
      exact ⟨_, rfl⟩

/-- C5 (amended): `segment_and_color` checks neither `max_regions` nor the length of
the palette. Its run completes, with every read in range, when the region of
interest has a row in the centroid table, the statistics table has a row 3, the
kept-ids list is not empty, the kept-ids list and the palette have an entry `i`
for every `1 ≤ i < max_regions`, the label image covers the mask and, in the
colourful mode, the palette has an entry at every kept id. -/
theorem segment_and_color_completes {F D : Type} (fo : FloatOps F D) (lib : Lib F D)
    (src : Img uchar) (random_colors : List Vec3b) (max_regions : Int) (isColorful : Bool)
    (cc : Components D) (hcc : lib.connectedComponentsWithStats src = cc)
    (ids : List Int)
    (hids : lib.get_top_N_largest_areas_index (cc.stats.map (fun row => row.area))
      max_regions = ids)
    (roi : Int)
    (hroi : lib.get_id_with_most_center_centroids (lib.get_center_coordinates src)
      cc.centroids ids = roi)
    (h_centroid : 0 ≤ roi ∧ roi < cc.centroids.length)
    (h_stats : 3 < cc.stats.length)
    (h_ids : 0 < ids.length)
    (h_loop : ∀ i : Nat, 1 ≤ i → (i : Int) < max_regions →
      i < ids.length ∧ i < random_colors.length)
    (h_label : ∀ r, r < Img.rows src → ∀ c, c < Img.cols src →
      (Img.at? cc.labels r c).isSome = true)
    (h_palette : isColorful = true → ∀ l ∈ ids, 0 ≤ l ∧ l < random_colors.length) :
    ∃ out : SegmentAndColor,
      segment_and_color fo lib src random_colors max_regions isColorful = .ok out := by
  subst hcc hids hroi
  obtain ⟨xy, hxy⟩ := vecAt?_isSome _ _ h_centroid.1 h_centroid.2
  have hseg := segmentation_of_centroid fo lib src max_regions xy hxy
  obtain ⟨m, hm⟩ := regionid_colors_total _ random_colors max_regions h_ids h_loop
  have hrow := List.getElem?_eq_getElem h_stats
  have hrun := segment_and_color_of_parts fo lib src random_colors max_regions isColorful
    _ _ m hseg hrow hm
  cases isColorful with
  | true =>
    obtain ⟨img, himg⟩ := color_regions_total src _ _ random_colors h_label (h_palette rfl)
    simp only [himg, if_true] at hrun
    exact ⟨_, hrun⟩
  | false =>
    obtain ⟨img, himg⟩ := keep_region_of_interest_total src _
      (lib.get_id_with_most_center_centroids (lib.get_center_coordinates src)
        (lib.connectedComponentsWithStats src).centroids
        (lib.get_top_N_largest_areas_index
          ((lib.connectedComponentsWithStats src).stats.map (fun row => row.area))
          max_regions)) h_label
    simp only [himg, Bool.false_eq_true, if_false] at hrun
    exact ⟨_, hrun⟩

theorem segment_and_color_completes_witness :
    ∃ out : SegmentAndColor,
      segment_and_color ieee exampleLib exampleMask examplePalette 4 true = .ok out :=
  segment_and_color_completes ieee exampleLib exampleMask examplePalette 4 true
    exampleComponents rfl [0, 1, 3, 2] (by decide) 2 (by decide!)
    (by decide) (by decide) (by decide)
    (fun i h1 h2 => by
      have h3 : i < 4 := by omega
      exact ⟨h3, h3⟩)
    (by decide) (fun _ => by decide)

/-- C5 (counterexample): on the example with `max_regions = 4` and a palette of 2
colours the run reads `random_colors` out of range, and with `max_regions = 0`
it reads `out_ids_to_keep` out of range; neither run is rejected before the
read. -/
theorem segment_and_color_no_validation :
    (examplePalette.take 2).length < 4 ∧
    segment_and_color ieee exampleLib exampleMask (examplePalette.take 2) 4 true
      = .error Fault.random_colors ∧
    segment_and_color ieee exampleLib exampleMask examplePalette 0 true
      = .error Fault.out_ids_to_keep := by
  decide!

/-- C2 (failing input): on the example with `max_regions = 4` the region of interest
is label 2, whose row of the statistics table has area 1, while `out_area` is 2,
the area of row 3. -/
theorem segment_and_color_out_area_example :
    (segmentation ieee exampleLib exampleMask 4).map
        (fun seg => (seg.out_id_of_interest,
          (vecAt? seg.out_stats seg.out_id_of_interest).map (fun row => row.area),
          (vecAt? seg.out_stats 3).map (fun row => row.area)))
      = .ok (2, some 1, some 2) ∧
    (segment_and_color ieee exampleLib exampleMask examplePalette 4 false).map
        (fun out => out.out_area) = .ok 2 := by
  decide!

/-- C3 (failing input): on the example the kept ids are `[0, 1, 3, 2]`, the pixel in
row 0, column 3 has the background label 0, and the colourful mode paints it
with `random_colors[0]`, here red, not black. -/
theorem color_regions_background_example :
    (segmentation ieee exampleLib exampleMask 4).map
        (fun seg => (seg.out_ids_to_keep, Img.at? seg.out_label 0 3))
      = .ok ([0, 1, 3, 2], some 0) ∧
    (color_regions exampleMask exampleComponents.labels [0, 1, 3, 2] examplePalette).map
        (fun img => Img.at? img 0 3) = .ok (some ⟨255, 0, 0⟩) ∧
    (⟨255, 0, 0⟩ : Vec3b) ≠ Vec3b.black := by
  decide!

/-- C4 (failing input): on the example, which has 4 components, `max_regions = 6`
gives a kept-ids list of 4 entries, and the run of `segment_and_color`, in
either mode and with a palette of 6 colours, reads `out_ids_to_keep[4]`. -/
theorem segment_and_color_fewer_components_example :
    exampleComponents.stats.length = 4 ∧
    (segmentation ieee exampleLib exampleMask 6).map
        (fun seg => seg.out_ids_to_keep) = .ok [0, 1, 3, 2] ∧
    segment_and_color ieee exampleLib exampleMask examplePalette6 6 false
      = .error Fault.out_ids_to_keep ∧
    segment_and_color ieee exampleLib exampleMask examplePalette6 6 true
      = .error Fault.out_ids_to_keep := by
  decide!

/-! ## Facts about `compute_features` -/

theorem FVal.signedInf_not_finite (a : ℚ) : (FVal.signedInf a).isFinite = false := by
  unfold FVal.signedInf
  split
  · rfl
  · split <;> rfl

theorem FVal.div_zero_not_finite (x : FVal) : (FVal.div x (FVal.fin 0)).isFinite = false := by
  cases x with
  | fin a =>
    simp only [FVal.div, if_true]
    exact FVal.signedInf_not_finite a
  | pinf => simp [FVal.div, FVal.isFinite]
  | ninf => simp [FVal.div, FVal.isFinite]
  | nan => rfl

theorem FVal.mul_not_finite (x y : FVal) (hx : x.isFinite = false) :
    (FVal.mul x y).isFinite = false := by
  cases x with
  | fin a => cases hx
  | pinf =>
    cases y with
    | fin b => exact FVal.signedInf_not_finite b
    | pinf => rfl
    | ninf => rfl
    | nan => rfl
  | ninf =>
    cases y with
    | fin b => exact FVal.signedInf_not_finite (-b)
    | pinf => rfl
    | ninf => rfl
    | nan => rfl
  | nan => cases y <;> rfl

/-- The run of `compute_features` once `segment_and_color` has completed. -/
theorem compute_features_of_segment {F D : Type} (fo : FloatOps F D) (lib : Lib F D)
    (src : Img Vec3b) (random_colors : List Vec3b) (max_regions : Int)
    (out_features : List F) (seg : SegmentAndColor)
    (hseg : segment_and_color fo lib (clean_up lib (thresholding_rgb lib.blur3x3 src))
      random_colors max_regions false = .ok seg) :
    compute_features fo lib src random_colors max_regions out_features =
      .ok (out_features
        ++ List.ofFn (fun i : Fin 7 =>
            fo.narrow (lib.compute_log_scale_hu (lib.get_contour_of_interest seg.dst) i))
        ++ [fo.narrow (fo.widen (fo.fmul
              (fo.fdiv (fo.ofInt seg.out_area)
                (fo.fmul (lib.minAreaRect (lib.get_contour_of_interest seg.dst)).width
                  (lib.minAreaRect (lib.get_contour_of_interest seg.dst)).height))
              (fo.ofInt 100)))]
        ++ [fo.narrow (fo.widen (fo.fdiv
              (lib.minAreaRect (lib.get_contour_of_interest seg.dst)).width
              (lib.minAreaRect (lib.get_contour_of_interest seg.dst)).height))]) := by
  unfold compute_features
  simp only [hseg]

theorem append_nine_get {α : Type} (l : List α) (f : Fin 7 → α) (p q : α) :
    (l ++ List.ofFn f ++ [p] ++ [q]).length = l.length + 9 ∧
    (∀ i : Fin 7, (l ++ List.ofFn f ++ [p] ++ [q])[l.length + i.val]? = some (f i)) ∧
    (l ++ List.ofFn f ++ [p] ++ [q])[l.length + 7]? = some p ∧
    (l ++ List.ofFn f ++ [p] ++ [q])[l.length + 8]? = some q ∧
    (∀ k, k < l.length → (l ++ List.ofFn f ++ [p] ++ [q])[k]? = l[k]?) := by
  have hlen : (List.ofFn f).length = 7 := List.length_ofFn f
  refine ⟨?_, ?_, ?_, ?_, ?_⟩
  · simp only [List.length_append, hlen, List.length_singleton]
  · intro i
    rw [List.append_assoc, List.append_assoc, List.getElem?_append_right (by omega)]
    rw [Nat.add_sub_cancel_left, List.getElem?_append_left (by rw [hlen]; exact i.isLt)]
    rw [List.getElem?_ofFn]
    unfold List.ofFnNthVal
    rw [dif_pos i.isLt]
  · rw [List.append_assoc, List.append_assoc, List.getElem?_append_right (by omega)]
    rw [Nat.add_sub_cancel_left, List.getElem?_append_right (by omega), hlen]
    rfl
  · rw [List.append_assoc, List.append_assoc, List.getElem?_append_right (by omega)]
    rw [Nat.add_sub_cancel_left, List.getElem?_append_right (by omega), hlen]
    rfl
  · intro k hk
    rw [List.append_assoc, List.append_assoc, List.getElem?_append_left hk]

/-- C7 (amended): `compute_features` appends to `out_features`. Once
`segment_and_color` has completed on the cleaned mask, the run returns
`out_features` followed by exactly 9 values: the seven values of
`compute_log_scale_hu` in order, each converted to `float`, then
`pixel_area / (width * height) * 100`, then `width / height`; the entries
that were in `out_features` stay in front, so the vector has exactly 9 elements
when `out_features` was empty at the call. -/
theorem compute_features_appends_nine {F D : Type} (fo : FloatOps F D) (lib : Lib F D)
    (src : Img Vec3b) (random_colors : List Vec3b) (max_regions : Int)
    (out_features : List F) (seg : SegmentAndColor)
    (hseg : segment_and_color fo lib (clean_up lib (thresholding_rgb lib.blur3x3 src))
      random_colors max_regions false = .ok seg) :
    ∃ out : List F,
      compute_features fo lib src random_colors max_regions out_features = .ok out ∧
      out.length = out_features.length + 9 ∧
      (∀ i : Fin 7, out[out_features.length + i.val]? =
        some (fo.narrow (lib.compute_log_scale_hu (lib.get_contour_of_interest seg.dst) i))) ∧
      out[out_features.length + 7]? =
        some (fo.narrow (fo.widen (fo.fmul
          (fo.fdiv (fo.ofInt seg.out_area)
            (fo.fmul (lib.minAreaRect (lib.get_contour_of_interest seg.dst)).width
              (lib.minAreaRect (lib.get_contour_of_interest seg.dst)).height))
          (fo.ofInt 100)))) ∧
      out[out_features.length + 8]? =
        some (fo.narrow (fo.widen (fo.fdiv
          (lib.minAreaRect (lib.get_contour_of_interest seg.dst)).width
          (lib.minAreaRect (lib.get_contour_of_interest seg.dst)).height))) ∧
      (∀ k, k < out_features.length → out[k]? = out_features[k]?) ∧
      (out_features = [] → out.length = 9) := by
  refine ⟨_, compute_features_of_segment fo lib src random_colors max_regions out_features
    seg hseg, ?_⟩
  obtain ⟨h1, h2, h3, h4, h5⟩ := append_nine_get out_features
    (fun i : Fin 7 =>
      fo.narrow (lib.compute_log_scale_hu (lib.get_contour_of_interest seg.dst) i))
    (fo.narrow (fo.widen (fo.fmul
      (fo.fdiv (fo.ofInt seg.out_area)
        (fo.fmul (lib.minAreaRect (lib.get_contour_of_interest seg.dst)).width
          (lib.minAreaRect (lib.get_contour_of_interest seg.dst)).height))
      (fo.ofInt 100))))
    (fo.narrow (fo.widen (fo.fdiv
      (lib.minAreaRect (lib.get_contour_of_interest seg.dst)).width
      (lib.minAreaRect (lib.get_contour_of_interest seg.dst)).height)))
  refine ⟨h1, h2, h3, h4, h5, ?_⟩
  intro hnil
  rw [h1, hnil]
  rfl

theorem compute_features_appends_nine_witness :
    ∃ out : List FVal,
      compute_features ieee exampleLib exampleImage examplePalette 4 [] = .ok out ∧
      out.length = 9 :=
  match compute_features_appends_nine ieee exampleLib exampleImage examplePalette 4 []
      exampleSegment (by decide!) with
  | ⟨out, h, _, _, _, _, _, h9⟩ => ⟨out, h, h9 rfl⟩

/-- C7 (counterexample): called on the example with an `out_features` that already
holds one value, `compute_features` returns a vector of 10 elements. -/
theorem compute_features_ten_elements :
    (compute_features ieee exampleLib exampleImage examplePalette 4 [FVal.fin 1]).map
      List.length = .ok 10 := by
  decide!

/-- C6 (amended): `compute_features` divides without a guard. In IEEE-754
arithmetic, once `segment_and_color` has completed on the cleaned mask, the value
stored as percent fill is `pixel_area / (width * height) * 100` and the one
stored as ratio is `width / height`, whatever the rectangle; when
`width * height` is 0 the percent fill is an infinity or a NaN, and when
`height` is 0 the ratio is an infinity or a NaN. -/
theorem compute_features_divisions_unguarded (lib : Lib FVal FVal) (src : Img Vec3b)
    (random_colors : List Vec3b) (max_regions : Int) (out_features : List FVal)
    (seg : SegmentAndColor)
    (hseg : segment_and_color ieee lib (clean_up lib (thresholding_rgb lib.blur3x3 src))
      random_colors max_regions false = .ok seg) :
    ∃ (out : List FVal) (perc_fill ratio : FVal),
      compute_features ieee lib src random_colors max_regions out_features = .ok out ∧
      out[out_features.length + 7]? = some perc_fill ∧
      out[out_features.length + 8]? = some ratio ∧
      perc_fill = FVal.mul
        (FVal.div (FVal.fin seg.out_area)
          (FVal.mul (lib.minAreaRect (lib.get_contour_of_interest seg.dst)).width
            (lib.minAreaRect (lib.get_contour_of_interest seg.dst)).height))
        (FVal.fin 100) ∧
      ratio = FVal.div (lib.minAreaRect (lib.get_contour_of_interest seg.dst)).width
        (lib.minAreaRect (lib.get_contour_of_interest seg.dst)).height ∧
      (FVal.mul (lib.minAreaRect (lib.get_contour_of_interest seg.dst)).width
          (lib.minAreaRect (lib.get_contour_of_interest seg.dst)).height = FVal.fin 0 →
        perc_fill.isFinite = false) ∧
      ((lib.minAreaRect (lib.get_contour_of_interest seg.dst)).height = FVal.fin 0 →
        ratio.isFinite = false) := by
  have hout := compute_features_of_segment ieee lib src random_colors max_regions
    out_features seg hseg
  obtain ⟨_, _, h7, h8, _⟩ := append_nine_get out_features
    (fun i : Fin 7 =>
      ieee.narrow (lib.compute_log_scale_hu (lib.get_contour_of_interest seg.dst) i))
    (ieee.narrow (ieee.widen (ieee.fmul
      (ieee.fdiv (ieee.ofInt seg.out_area)
        (ieee.fmul (lib.minAreaRect (lib.get_contour_of_interest seg.dst)).width
          (lib.minAreaRect (lib.get_contour_of_interest seg.dst)).height))
      (ieee.ofInt 100))))
    (ieee.narrow (ieee.widen (ieee.fdiv
      (lib.minAreaRect (lib.get_contour_of_interest seg.dst)).width
      (lib.minAreaRect (lib.get_contour_of_interest seg.dst)).height)))
  refine ⟨_, _, _, hout, h7, h8, ?_, rfl, ?_, ?_⟩
  · simp only [ieee, Int.cast_ofNat]
  · intro h0
    simp only [ieee]
    apply FVal.mul_not_finite
    rw [h0]
    exact FVal.div_zero_not_finite _
  · intro h0
    simp only [ieee]
    rw [h0]
    exact FVal.div_zero_not_finite _

theorem compute_features_divisions_unguarded_witness :
    ∃ (out : List FVal) (perc_fill ratio : FVal),
      compute_features ieee exampleLib exampleImage examplePalette 4 [] = .ok out ∧
      out[7]? = some perc_fill ∧ out[8]? = some ratio ∧
      perc_fill.isFinite = false ∧ ratio.isFinite = false :=
  match compute_features_divisions_unguarded exampleLib exampleImage examplePalette 4 []
      exampleSegment (by decide!) with
  | ⟨out, p, q, h, h7, h8, _, _, hp, hq⟩ =>
    ⟨out, p, q, h, h7, h8, hp (by decide!), hq (by decide!)⟩

/-- C6 (counterexample): on the example the region of interest is a single pixel,
its rectangle has width 0 and height 0, and `compute_features` stores `+Inf` as
percent fill (index 7) and a NaN as ratio (index 8). -/
theorem compute_features_degenerate_rectangle :
    (exampleLib.minAreaRect (exampleLib.get_contour_of_interest exampleSegment.dst)).width
      = FVal.fin 0 ∧
    (exampleLib.minAreaRect (exampleLib.get_contour_of_interest exampleSegment.dst)).height
      = FVal.fin 0 ∧
    segment_and_color ieee exampleLib
      (clean_up exampleLib (thresholding_rgb exampleLib.blur3x3 exampleImage))
      examplePalette 4 false = .ok exampleSegment ∧
    compute_features ieee exampleLib exampleImage examplePalette 4 [] =
      .ok [FVal.fin 0, FVal.fin 0, FVal.fin 0, FVal.fin 0, FVal.fin 0, FVal.fin 0,
           FVal.fin 0, FVal.pinf, FVal.nan] ∧
    FVal.isFinite FVal.pinf = false ∧ FVal.isFinite FVal.nan = false := by
  decide!

end OR
